import Mathlib

/-!
Verification of `sentinel_2_acq_table.py` (Sentinel-2 acquisition-plan table
pipeline).  Each Python function that the specification's claims touch is
shallowly embedded as an executable Lean definition; machine details that the
source delegates to libraries (pandas, shapely, the csv writer) are embedded
following those libraries' documented behaviour for the exact calls the source
makes.  Strings are modelled as `List Char` where character-level reasoning is
needed, and as `String` elsewhere.
-/

/-! ## Python whitespace and `str.split()` / `' '.join` (used by
`_sanitize_for_table`, line 264-269, and by the polygon text builder,
line 197). -/

/-- Python's default whitespace set for `str.split()` / `str.strip()` /
`str.rstrip()` restricted to ASCII: space, tab, newline, carriage return,
vertical tab, form feed. -/
def isWsPy (c : Char) : Bool :=
  c = ' ' || c = '\t' || c = '\n' || c = '\r' || c = '\x0b' || c = '\x0c'

/-- Worker for `pyTokens`: scans the list, accumulating the current
(reversed) run of non-whitespace characters in `acc`. -/
def tokensAux : List Char → List Char → List (List Char)
  | [], acc => if acc.isEmpty then [] else [acc.reverse]
  | c :: cs, acc =>
    if isWsPy c then
      if acc.isEmpty then tokensAux cs [] else acc.reverse :: tokensAux cs []
    else
      tokensAux cs (c :: acc)

/-- Python `value.split()`: the maximal runs of non-whitespace characters. -/
def pyTokens (l : List Char) : List (List Char) := tokensAux l []

/-- `sep.join(tokens)` for a one-character separator. -/
def joinSep (sep : Char) : List (List Char) → List Char
  | [] => []
  | [t] => t
  | t :: ts => t ++ sep :: joinSep sep ts

/-- `" ".join(value.split())` — the string branch of `_sanitize_for_table`
(line 266). -/
def sanitizeChars (l : List Char) : List Char := joinSep ' ' (pyTokens l)

/-- `_sanitize_for_table` on a cell: a missing value (pandas `NaN`, modelled
as `none`) becomes `""`; a string is whitespace-collapsed.  All cells reaching
the exporter in this pipeline are strings or missing, so no `str(value)`
branch is needed. -/
def sanitizeForTable : Option (List Char) → List Char
  | none => []
  | some s => sanitizeChars s

/-! ### Facts about `pyTokens` and `joinSep`. -/

theorem tokensAux_sound (l : List Char) :
    ∀ acc, (∀ c ∈ acc, isWsPy c = false) →
      ∀ t ∈ tokensAux l acc, t ≠ [] ∧ ∀ c ∈ t, isWsPy c = false := by
  induction l with
  | nil =>
    intro acc hacc t ht
    simp only [tokensAux] at ht
    by_cases h : acc.isEmpty
    · simp [h] at ht
    · simp [h] at ht
      subst ht
      constructor
      · simpa [List.isEmpty_iff] using h
      · intro c hc
        exact hacc c (List.mem_reverse.mp hc)
  | cons c cs ih =>
    intro acc hacc t ht
    simp only [tokensAux] at ht
    by_cases hw : isWsPy c
    · simp only [hw, if_true] at ht
      by_cases h : acc.isEmpty
      · simp only [h, if_true] at ht
        exact ih [] (by simp) t ht
      · simp [h] at ht
        rcases ht with ht | ht
        · subst ht
          constructor
          · simpa [List.isEmpty_iff] using h
          · intro d hd
            exact hacc d (List.mem_reverse.mp hd)
        · exact ih [] (by simp) t ht
    · simp only [hw, if_false] at ht
      refine ih (c :: acc) ?_ t ht
      intro d hd
      rcases List.mem_cons.mp hd with h | h
      · subst h; simpa using hw
      · exact hacc d h

theorem pyTokens_sound (l : List Char) :
    ∀ t ∈ pyTokens l, t ≠ [] ∧ ∀ c ∈ t, isWsPy c = false :=
  tokensAux_sound l [] (by simp)

theorem mem_joinSep {sep c : Char} :
    ∀ ts, c ∈ joinSep sep ts → c = sep ∨ ∃ t ∈ ts, c ∈ t := by
  intro ts
  induction ts with
  | nil => simp [joinSep]
  | cons t ts ih =>
    cases ts with
    | nil => intro h; right; exact ⟨t, by simp, by simpa [joinSep] using h⟩
    | cons t2 ts2 =>
      intro h
      rcases List.mem_append.mp h with h | h
      · right; exact ⟨t, by simp, h⟩
      · rcases List.mem_cons.mp h with h | h
        · left; exact h
        · rcases ih h with h | ⟨u, hu, hc⟩
          · left; exact h
          · right; exact ⟨u, List.mem_cons_of_mem _ hu, hc⟩

theorem sanitizeChars_ws (l : List Char) :
    ∀ c ∈ sanitizeChars l, isWsPy c = true → c = ' ' := by
  intro c hc hw
  rcases mem_joinSep _ hc with h | ⟨t, ht, hct⟩
  · exact h
  · exact absurd hw (by simp [(pyTokens_sound l t ht).2 c hct])

theorem joinSep_head? (sep : Char) :
    ∀ ts : List (List Char), (∀ t ∈ ts, t ≠ []) → ts ≠ [] →
      ∃ t0, ts.head? = some t0 ∧ (joinSep sep ts).head? = t0.head? := by
  intro ts hne hts
  cases ts with
  | nil => exact absurd rfl hts
  | cons t ts =>
    refine ⟨t, rfl, ?_⟩
    cases ts with
    | nil => simp [joinSep]
    | cons t2 ts2 =>
      have ht : t ≠ [] := hne t (by simp)
      cases t with
      | nil => exact absurd rfl ht
      | cons a t' => simp [joinSep]

theorem joinSep_getLast? (sep : Char) :
    ∀ ts : List (List Char), (∀ t ∈ ts, t ≠ []) → ts ≠ [] →
      ∃ tl, ts.getLast? = some tl ∧ (joinSep sep ts).getLast? = tl.getLast? := by
  intro ts
  induction ts with
  | nil => intro _ h; exact absurd rfl h
  | cons t ts ih =>
    intro hne _
    cases ts with
    | nil => exact ⟨t, rfl, by simp [joinSep]⟩
    | cons t2 ts2 =>
      obtain ⟨tl, htl, hjoin⟩ :=
        ih (fun u hu => hne u (List.mem_cons_of_mem _ hu)) (by simp)
      refine ⟨tl, by simpa using htl, ?_⟩
      have hj : joinSep sep (t :: t2 :: ts2) = t ++ sep :: joinSep sep (t2 :: ts2) := rfl
      have ht2 : t2 ≠ [] := hne t2 (by simp)
      have h2 : joinSep sep (t2 :: ts2) ≠ [] := by
        cases ts2 with
        | nil => simpa [joinSep] using ht2
        | cons t3 ts3 =>
          have hj2 : joinSep sep (t2 :: t3 :: ts3) = t2 ++ sep :: joinSep sep (t3 :: ts3) := rfl
          rw [hj2]
          simp
      calc (joinSep sep (t :: t2 :: ts2)).getLast?
          = (sep :: joinSep sep (t2 :: ts2)).getLast? := by
            rw [hj]; exact List.getLast?_append_of_ne_nil t (by simp)
        _ = (joinSep sep (t2 :: ts2)).getLast? :=
            List.getLast?_append_of_ne_nil [sep] h2
        _ = tl.getLast? := hjoin

theorem chain'_of_no_space {l : List Char} (h : ∀ a ∈ l, a ≠ ' ') :
    List.Chain' (fun a b => a ≠ ' ' ∨ b ≠ ' ') l := by
  induction l with
  | nil => simp
  | cons x l ih =>
    rw [List.chain'_cons']
    refine ⟨fun y _ => Or.inl (h x (by simp)), ?_⟩
    exact ih (fun a ha => h a (List.mem_cons_of_mem _ ha))

theorem chain'_joinSep_tokens :
    ∀ ts : List (List Char),
      (∀ t ∈ ts, t ≠ [] ∧ ∀ c ∈ t, isWsPy c = false) →
      List.Chain' (fun a b => a ≠ ' ' ∨ b ≠ ' ') (joinSep ' ' ts) := by
  intro ts
  induction ts with
  | nil => simp [joinSep]
  | cons t ts ih =>
    intro h
    have hnospace : ∀ a ∈ t, a ≠ ' ' := by
      intro a ha hsp
      have := (h t (by simp)).2 a ha
      rw [hsp] at this
      simp [isWsPy] at this
    cases ts with
    | nil =>
      simpa [joinSep] using chain'_of_no_space hnospace
    | cons t2 ts2 =>
      have hj : joinSep ' ' (t :: t2 :: ts2) = t ++ ' ' :: joinSep ' ' (t2 :: ts2) := rfl
      rw [hj, List.chain'_append]
      refine ⟨chain'_of_no_space hnospace, ?_, ?_⟩
      · rw [List.chain'_cons']
        refine ⟨?_, ih (fun u hu => h u (List.mem_cons_of_mem _ hu))⟩
        intro y hy
        right
        obtain ⟨t0, ht0, hhead⟩ :=
          joinSep_head? ' ' (t2 :: ts2)
            (fun u hu => (h u (List.mem_cons_of_mem _ hu)).1) (by simp)
        rw [hhead] at hy
        have ht0mem : t0 ∈ t2 :: ts2 :=
          List.mem_of_mem_head? (Option.mem_def.mpr ht0)
        have hy' : y ∈ t0 := List.mem_of_mem_head? hy
        intro hsp
        have := (h t0 (List.mem_cons_of_mem _ ht0mem)).2 y hy'
        rw [hsp] at this
        simp [isWsPy] at this
      · intro x hx y hy
        left
        exact hnospace x (List.mem_of_getLast?_eq_some (Option.mem_def.mp hx))

/-- Claim C6: `_sanitize_for_table` (line 264-269) collapses every internal
whitespace run to a single space and trims both ends: the sanitized cell
contains no tab and no newline, every residual whitespace character is a
plain space, the first and last characters are not whitespace, and no two
adjacent characters are both spaces. -/
theorem C6_sanitize_collapses_and_trims (cell : Option (List Char)) :
    ('\t' ∉ sanitizeForTable cell) ∧
    ('\n' ∉ sanitizeForTable cell) ∧
    (∀ c ∈ sanitizeForTable cell, isWsPy c = true → c = ' ') ∧
    (∀ c, (sanitizeForTable cell).head? = some c → isWsPy c = false) ∧
    (∀ c, (sanitizeForTable cell).getLast? = some c → isWsPy c = false) ∧
    List.Chain' (fun a b => a ≠ ' ' ∨ b ≠ ' ') (sanitizeForTable cell) := by
  cases cell with
  | none => simp [sanitizeForTable]
  | some s =>
    simp only [sanitizeForTable]
    have hws := sanitizeChars_ws s
    refine ⟨?_, ?_, hws, ?_, ?_, ?_⟩
    · intro h
      have := hws '\t' h (by simp [isWsPy])
      simp at this
    · intro h
      have := hws '\n' h (by simp [isWsPy])
      simp at this
    · intro c hc
      by_cases hts : pyTokens s = []
      · rw [sanitizeChars, hts] at hc
        simp [joinSep] at hc
      · obtain ⟨t0, ht0, hhead⟩ :=
          joinSep_head? ' ' (pyTokens s)
            (fun t ht => (pyTokens_sound s t ht).1) hts
        rw [sanitizeChars, hhead] at hc
        have ht0mem : t0 ∈ pyTokens s :=
          List.mem_of_mem_head? (Option.mem_def.mpr ht0)
        have hcm : c ∈ t0 := List.mem_of_mem_head? (Option.mem_def.mpr hc)
        exact (pyTokens_sound s t0 ht0mem).2 c hcm
    · intro c hc
      by_cases hts : pyTokens s = []
      · rw [sanitizeChars, hts] at hc
        simp [joinSep] at hc
      · obtain ⟨tl, htl, hlast⟩ :=
          joinSep_getLast? ' ' (pyTokens s)
            (fun t ht => (pyTokens_sound s t ht).1) hts
        rw [sanitizeChars, hlast] at hc
        have htlmem : tl ∈ pyTokens s := List.mem_of_getLast?_eq_some htl
        have hcm : c ∈ tl := List.mem_of_getLast?_eq_some hc
        exact (pyTokens_sound s tl htlmem).2 c hcm
    · exact chain'_joinSep_tokens _ (pyTokens_sound s)

/-! ## Plan parser: placemark metadata extraction and join
(`augment_gdf_with_metadata`, lines 157-241). -/

/-- Python `str.strip()` with the default whitespace set. -/
def pyStrip (s : String) : String :=
  String.mk (((s.toList.dropWhile isWsPy).reverse.dropWhile isWsPy).reverse)

/-- Python `value.split()` on a `String`. -/
def pySplitStr (s : String) : List String :=
  (pyTokens s.toList).map String.mk

/-- One `<Placemark>` element as read from the raw KML tree (lines 164-199):
the optional texts are `none` when the element is missing or its text is
`None`; `dataFields` lists the `ExtendedData/Data` name/value pairs in
document order, values already extracted as in lines 187-192. -/
structure Placemark where
  nameText : Option String
  beginText : Option String
  endText : Option String
  iconText : Option String
  coordsText : Option String
  dataFields : List (String × String)
deriving DecidableEq

/-- The join key for a placemark: skipped (`continue`, line 166-167) when the
name element is missing or its text is falsy, otherwise the stripped text
(line 168). -/
def extractKey (pm : Placemark) : Option String :=
  match pm.nameText with
  | none => none
  | some t => if t = "" then none else some (pyStrip t)

/-- `x_elem.text.strip() if x_elem is not None and x_elem.text else None`
(lines 176-180). -/
def stripOrNone : Option String → Option String
  | none => none
  | some t => if t = "" then none else some (pyStrip t)

/-- Polygon text of lines 195-199: joins the whitespace-separated coordinate
triples with `", "`, or `POLYGON Z EMPTY` when absent/falsy. -/
def polygonTextOf : Option String → String
  | none => "POLYGON Z EMPTY"
  | some t =>
    if t = "" then "POLYGON Z EMPTY"
    else "POLYGON Z ((" ++ String.intercalate ", " (pySplitStr t) ++ "))"

/-- A Python dict as an association list where `List.lookup` finds the most
recent assignment: prepending an entry models `d[k] = v`. -/
def dictInsert {β : Type} (m : List (String × β)) (k : String) (v : β) :
    List (String × β) :=
  (k, v) :: m

/-- The `data_fields` dict built by the loop of lines 182-193 (later
assignments to the same key win on lookup). -/
def dataDictOf (pairs : List (String × String)) : List (String × String) :=
  pairs.foldl (fun m kv => dictInsert m kv.1 kv.2) []

/-- The value stored at `placemark_metadata[name]` (lines 201-207). -/
structure PlacemarkMeta where
  beginT : Option String
  endT : Option String
  iconT : Option String
  polygon : String
  data : List (String × String)
deriving DecidableEq

/-- Lines 201-207: the dict literal
`{'begin': ..., 'end': ..., 'icon': ..., 'Polygon': ..., **data_fields}`. -/
def metaOf (pm : Placemark) : PlacemarkMeta :=
  { beginT := stripOrNone pm.beginText
    endT := stripOrNone pm.endText
    iconT := stripOrNone pm.iconText
    polygon := polygonTextOf pm.coordsText
    data := dataDictOf pm.dataFields }

/-- The `placemark_metadata` dict after the loop of lines 164-207: each named
placemark assigns its whole record to its key, in document order. -/
def buildPlacemarkMetadata (pms : List Placemark) :
    List (String × PlacemarkMeta) :=
  pms.foldl
    (fun m pm =>
      match extractKey pm with
      | none => m
      | some k => dictInsert m k (metaOf pm))
    []

/-- `.get(field, default)` on the per-name dict: `some v` when the key is
present with (Python) value `v` — where `v` itself may be Python `None`,
hence `Option (Option String)`.  `**data_fields` overrides the four core
keys on collision, as in the dict literal of lines 201-207. -/
def dictGet (m : PlacemarkMeta) (field : String) : Option (Option String) :=
  match List.lookup field m.data with
  | some v => some (some v)
  | none =>
    if field = "begin" then some m.beginT
    else if field = "end" then some m.endT
    else if field = "icon" then some m.iconT
    else if field = "Polygon" then some (some m.polygon)
    else none

/-- What the code resolves for `(name, field)`:
`placemark_metadata.get(name, {}).get(field, <default>)` before the default
is applied (`none` = key absent). -/
def joinedField (pms : List Placemark) (n field : String) :
    Option (Option String) :=
  (List.lookup n (buildPlacemarkMetadata pms)).bind (fun m => dictGet m field)

/-- Modelled from the spec: a per-field last-write-wins merge across all
placemarks sharing a name ("layer enumeration order, last write wins per
field"): for each field, the value written by the last placemark of that
name that carries the field. -/
def specPerFieldJoin (pms : List Placemark) (n field : String) :
    Option (Option String) :=
  (pms.reverse.find?
      (fun pm => extractKey pm == some n && (dictGet (metaOf pm) field).isSome)).bind
    (fun pm => dictGet (metaOf pm) field)

theorem buildPlacemarkMetadata_eq_filterMap (pms : List Placemark) :
    buildPlacemarkMetadata pms =
      pms.reverse.filterMap
        (fun pm => (extractKey pm).map (fun k => (k, metaOf pm))) := by
  suffices h : ∀ (l : List Placemark) (acc : List (String × PlacemarkMeta)),
      l.foldl
        (fun m pm =>
          match extractKey pm with
          | none => m
          | some k => dictInsert m k (metaOf pm)) acc =
      l.reverse.filterMap
        (fun pm => (extractKey pm).map (fun k => (k, metaOf pm))) ++ acc by
    simpa using h pms []
  intro l
  induction l with
  | nil => simp
  | cons pm l ih =>
    intro acc
    have hstep :
        (match extractKey pm with
          | none => acc
          | some k => dictInsert acc k (metaOf pm)) =
        (List.filterMap
          (fun pm => (extractKey pm).map (fun k => (k, metaOf pm))) [pm]) ++ acc := by
      cases h : extractKey pm with
      | none => simp [h]
      | some k => simp [h, dictInsert]
    calc (pm :: l).foldl _ acc
        = l.foldl
            (fun m pm =>
              match extractKey pm with
              | none => m
              | some k => dictInsert m k (metaOf pm))
            (match extractKey pm with
              | none => acc
              | some k => dictInsert acc k (metaOf pm)) := rfl
      _ = l.reverse.filterMap
            (fun pm => (extractKey pm).map (fun k => (k, metaOf pm))) ++
          (match extractKey pm with
            | none => acc
            | some k => dictInsert acc k (metaOf pm)) := ih _
      _ = (pm :: l).reverse.filterMap
            (fun pm => (extractKey pm).map (fun k => (k, metaOf pm))) ++ acc := by
          rw [hstep]
          simp [List.filterMap_append, List.append_assoc]

theorem lookup_filterMap_key (l : List Placemark) (n : String) :
    List.lookup n
        (l.filterMap (fun pm => (extractKey pm).map (fun k => (k, metaOf pm)))) =
      (l.find? (fun pm => extractKey pm == some n)).map metaOf := by
  induction l with
  | nil => simp
  | cons pm l ih =>
    cases h : extractKey pm with
    | none =>
      have hbeq : ¬ (extractKey pm == some n) = true := by
        rw [h]; simp
      rw [List.filterMap_cons, h,
        @List.find?_cons_of_neg _ (fun pm => extractKey pm == some n) pm l hbeq]
      exact ih
    | some k =>
      by_cases hk : k = n
      · subst hk
        have hbeq : (extractKey pm == some k) = true := by
          rw [h]; simp
        rw [List.filterMap_cons, h,
          @List.find?_cons_of_pos _ (fun pm => extractKey pm == some k) pm l hbeq]
        simp
      · have hbeq : ¬ (extractKey pm == some n) = true := by
          rw [h]; simp [hk]
        have hkeyne : (n == k) = false := by
          simp
          exact fun hnk => hk hnk.symm
        rw [List.filterMap_cons, h,
          @List.find?_cons_of_neg _ (fun pm => extractKey pm == some n) pm l hbeq]
        simpa [List.lookup, hkeyne] using ih

/-- Claim C1 (counterexample): the code's join is NOT a per-field last-write-
wins merge.  Two placemarks named `A`: the first carries extended attribute
`Station = X`, the second carries no `Station`.  Per-field last-write-wins
would keep `Station = X`; `augment_gdf_with_metadata` replaces the whole
record (line 201), so the final record for `A` has no `Station` at all. -/
theorem C1_counterexample_per_field_merge :
    joinedField
        [{ nameText := some "A", beginText := none, endText := none,
           iconText := none, coordsText := none,
           dataFields := [("Station", "X")] },
         { nameText := some "A", beginText := none, endText := none,
           iconText := none, coordsText := none, dataFields := [] }]
        "A" "Station" = none ∧
    specPerFieldJoin
        [{ nameText := some "A", beginText := none, endText := none,
           iconText := none, coordsText := none,
           dataFields := [("Station", "X")] },
         { nameText := some "A", beginText := none, endText := none,
           iconText := none, coordsText := none, dataFields := [] }]
        "A" "Station" = some (some "X") := by
  constructor <;> rfl

/-- Claim C1 (amended): when the same placemark name occurs more than once,
the parser resolves the joined metadata deterministically by whole-record
replacement in document (layer enumeration) order: the final record for a
name is exactly the record extracted from the LAST placemark bearing that
name, and fields present only in earlier occurrences are dropped.  Parsing
is a pure function of the document, so every repeat of the run on the same
input yields the same final value. -/
theorem C1_merge_whole_record_last_wins (pms : List Placemark) (n : String) :
    List.lookup n (buildPlacemarkMetadata pms) =
      (pms.reverse.find? (fun pm => extractKey pm == some n)).map metaOf := by
  rw [buildPlacemarkMetadata_eq_filterMap]
  exact lookup_filterMap_key pms.reverse n

/-! ## Document cache (`download_and_parse_kml`, lines 108-133). -/

/-- `os.path.basename` on a POSIX path: the part after the last `/`. -/
def basenamePy (s : String) : String :=
  String.mk ((s.toList.reverse.takeWhile (fun c => c ≠ '/')).reverse)

/-- Python `str.lower()` (ASCII suffices for the filenames in play). -/
def lowerStr (s : String) : String :=
  String.mk (s.toList.map Char.toLower)

/-- `filename_root.lower().endswith('.kml')` (line 115). -/
def endsWithKml (s : String) : Bool :=
  (lowerStr s).toList.reverse.take 4 == ['l', 'm', 'k', '.']

/-- Lines 114-116: basename of the document filename, with one trailing
`.kml` stripped case-insensitively. -/
def filenameRoot (kmlFilename : String) : String :=
  let r := basenamePy kmlFilename
  if endsWithKml r then String.mk (r.toList.take (r.toList.length - 4)) else r

/-- Line 117: `os.path.join(output_dir, f"{filename_root}.kml")` (the output
directory carries no trailing slash). -/
def localFilepath (outputDir kmlFilename : String) : String :=
  outputDir ++ "/" ++ filenameRoot kmlFilename ++ ".kml"

/-- Modelled from the spec: "cached at `<output_dir>/<document-basename>.kml`
regardless of source extension", reading `<document-basename>` as
`os.path.basename` of the document filename. -/
def specCachePath (outputDir kmlFilename : String) : String :=
  outputDir ++ "/" ++ basenamePy kmlFilename ++ ".kml"

/-- Lines 121-129: a download (curl) is attempted exactly when no file exists
at the computed local path; existence is the only staleness check. -/
def ensureLocalDownloads (existsAtPath : Bool) : Bool :=
  !existsAtPath

/-- Claim C9 (counterexample): for the document filename
`S2A_acquisition_plan.kml` the code caches at
`sentinel_kml_data/S2A_acquisition_plan.kml`, while the claimed path formula
`<output_dir>/<document-basename>.kml` yields
`sentinel_kml_data/S2A_acquisition_plan.kml.kml`. -/
theorem C9_counterexample_cache_path :
    localFilepath "sentinel_kml_data" "S2A_acquisition_plan.kml" ≠
      specCachePath "sentinel_kml_data" "S2A_acquisition_plan.kml" := by
  decide

/-- Claim C9 (amended): the cache path is
`<output_dir>/<b>.kml` where `b` is the document basename with a single
trailing `.kml` (compared case-insensitively) removed first, so the suffix is
never doubled; when the basename does not end in `.kml` the spec's literal
formula `<output_dir>/<basename>.kml` does hold; the resulting path always
ends in `.kml`; and when a file already exists at that path it is reused with
no download attempted (existence is the only staleness check). -/
theorem C9_cache_path_and_reuse (outputDir f : String) (existsAtPath : Bool) :
    (endsWithKml (basenamePy f) = false →
      localFilepath outputDir f = specCachePath outputDir f) ∧
    ((localFilepath outputDir f).toList.reverse.take 4 = ['l', 'm', 'k', '.']) ∧
    (existsAtPath = true → ensureLocalDownloads existsAtPath = false) := by
  refine ⟨?_, ?_, ?_⟩
  · intro h
    simp [localFilepath, specCachePath, filenameRoot, h]
  · have : (localFilepath outputDir f).toList =
        (outputDir ++ "/" ++ filenameRoot f).toList ++ ".kml".toList := by
      simp [localFilepath]
    rw [this]
    simp
  · intro h
    simp [ensureLocalDownloads, h]

theorem C9_cache_path_and_reuse_witness :
    (endsWithKml (basenamePy "S2A_acquisition_plan.kml.txt") = false →
      localFilepath "sentinel_kml_data" "S2A_acquisition_plan.kml.txt" =
        specCachePath "sentinel_kml_data" "S2A_acquisition_plan.kml.txt") ∧
    ((localFilepath "sentinel_kml_data" "S2A_acquisition_plan.kml.txt").toList.reverse.take 4 =
      ['l', 'm', 'k', '.']) ∧
    (true = true → ensureLocalDownloads true = false) :=
  C9_cache_path_and_reuse "sentinel_kml_data" "S2A_acquisition_plan.kml.txt" true

/-! ## Per-location export decision (`__main__`, lines 327-355). -/

/-- The fixed query-location list (lines 316-320), keys only. -/
def queryLocations : List String :=
  ["Seattle, WA", "New York, NY", "Chicago, IL"]

/-- `location_files` (lines 321-325). -/
def locationFiles : List (String × String) :=
  [("Seattle, WA", "sea.tsv"), ("New York, NY", "jfk.tsv"),
   ("Chicago, IL", "ord.tsv")]

/-- Lines 331-353 for one location: an empty match set prints a notice and
writes nothing (`continue`, line 333); otherwise the configured filename is
looked up (a missing configuration also writes nothing, line 347-349) and
exactly one file is written at `<output_dir>/<filename>`. -/
def exportFileFor {α : Type} (outputDir locName : String) (ms : List α) :
    Option String :=
  match ms with
  | [] => none
  | _ :: _ =>
    match List.lookup locName locationFiles with
    | none => none
    | some f => some (outputDir ++ "/" ++ f)

/-- Claim C5: for every query location processed in the run (the three
configured locations, all of which have a configured output filename),
exactly one output file is written iff at least one record matched; zero
matches write no file. -/
theorem C5_one_file_iff_matches {α : Type} (outputDir : String)
    (locName : String) (ms : List α)
    (hloc : locName ∈ queryLocations) :
    (exportFileFor outputDir locName ms).isSome ↔ ms ≠ [] := by
  have hfile : (List.lookup locName locationFiles).isSome := by
    fin_cases hloc <;> decide
  cases ms with
  | nil => simp [exportFileFor]
  | cons a l =>
    cases hf : List.lookup locName locationFiles with
    | none => rw [hf] at hfile; simp at hfile
    | some f => simp [exportFileFor, hf]

theorem C5_one_file_iff_matches_witness :
    (((exportFileFor "sentinel_kml_data" "Seattle, WA" [(0 : Nat)]).isSome ↔
        [(0 : Nat)] ≠ []) ∧
      ((exportFileFor "sentinel_kml_data" "Chicago, IL" ([] : List Nat)).isSome ↔
        ([] : List Nat) ≠ [])) :=
  ⟨C5_one_file_iff_matches "sentinel_kml_data" "Seattle, WA" [(0 : Nat)]
      (by decide),
    C5_one_file_iff_matches "sentinel_kml_data" "Chicago, IL" ([] : List Nat)
      (by decide)⟩

/-! ## Per-satellite failure isolation (`download_and_parse_kml` returning
`None` on failure, lines 131-133 and 153-155; `__main__` loop, lines
292-296). -/

/-- The outcome of `download_and_parse_kml` for one satellite: if the file is
cached, parsing proceeds; otherwise a failed download returns `None` before
parsing; a parse failure is a `None` parse outcome.  `none` = satellite
excluded. -/
def downloadAndParseResult {G : Type} (cached downloadOk : Bool)
    (parseOutcome : Option G) : Option G :=
  if cached then parseOutcome
  else if downloadOk then parseOutcome
  else none

/-- The `__main__` loop of lines 292-296: every satellite is attempted in
turn; only non-`None` results are added to `kml_data_objects`. -/
def processSatellites {G : Type} (fetch : String → Option G)
    (sats : List String) : List (String × G) :=
  sats.foldl
    (fun acc s =>
      match fetch s with
      | none => acc
      | some g => acc ++ [(s, g)])
    []

theorem processSatellites_eq_filterMap {G : Type} (fetch : String → Option G)
    (sats : List String) :
    processSatellites fetch sats =
      sats.filterMap (fun s => (fetch s).map (fun g => (s, g))) := by
  suffices h : ∀ (l : List String) (acc : List (String × G)),
      l.foldl
        (fun acc s =>
          match fetch s with
          | none => acc
          | some g => acc ++ [(s, g)]) acc =
      acc ++ l.filterMap (fun s => (fetch s).map (fun g => (s, g))) by
    simpa using h sats []
  intro l
  induction l with
  | nil => simp
  | cons s l ih =>
    intro acc
    cases h : fetch s with
    | none => simp [List.foldl_cons, h, ih]
    | some g => simp [List.foldl_cons, h, ih]

/-- Claim C8: a download or parse failure of one satellite (`fetch s = none`)
only excludes that satellite: it contributes no entry, every other satellite
is still processed, and its result is exactly what it would be in a run
(`fetch'`) where satellite `s` did not fail. -/
theorem C8_failure_isolated {G : Type} (sats : List String)
    (fetch fetch' : String → Option G) (s : String)
    (hagree : ∀ t, t ≠ s → fetch t = fetch' t) (hfail : fetch s = none) :
    (∀ g : G, (s, g) ∉ processSatellites fetch sats) ∧
    (∀ t g, t ∈ sats → t ≠ s → fetch t = some g →
      (t, g) ∈ processSatellites fetch sats) ∧
    (∀ t, t ≠ s →
      List.lookup t (processSatellites fetch sats) =
        List.lookup t (processSatellites fetch' sats)) := by
  refine ⟨?_, ?_, ?_⟩
  · intro g hmem
    rw [processSatellites_eq_filterMap] at hmem
    rcases List.mem_filterMap.mp hmem with ⟨t, _, hmap⟩
    cases h : fetch t with
    | none => rw [h] at hmap; simp at hmap
    | some g2 =>
      rw [h] at hmap
      simp at hmap
      rcases hmap with ⟨hts, _⟩
      rw [hts] at h
      rw [h] at hfail
      exact Option.noConfusion hfail
  · intro t g ht hts hsome
    rw [processSatellites_eq_filterMap]
    exact List.mem_filterMap.mpr ⟨t, ht, by rw [hsome]; rfl⟩
  · intro t hts
    rw [processSatellites_eq_filterMap, processSatellites_eq_filterMap]
    induction sats with
    | nil => rfl
    | cons x l ih =>
      by_cases hxs : x = s
      · subst hxs
        rw [List.filterMap_cons, List.filterMap_cons, hfail]
        cases h' : fetch' x with
        | none => exact ih
        | some g =>
          have hne : (t == x) = false := by
            simp [hts]
          simp only [List.lookup, hne]
          exact ih
      · rw [List.filterMap_cons, List.filterMap_cons, hagree x hxs]
        cases h' : fetch' x with
        | none => exact ih
        | some g =>
          by_cases htx : t = x
          · subst htx
            simp
          · have hne : (t == x) = false := by
              simp [htx]
            simp only [List.lookup, hne]
            exact ih

theorem C8_failure_isolated_witness :
    (∀ g : Nat,
        ("Sentinel-2A", g) ∉
          processSatellites
            (fun t =>
              if t = "Sentinel-2A" then
                downloadAndParseResult false false (some 1)
              else downloadAndParseResult true true (some 2))
            ["Sentinel-2A", "Sentinel-2B", "Sentinel-2C"]) ∧
    (∀ t g, t ∈ ["Sentinel-2A", "Sentinel-2B", "Sentinel-2C"] →
      t ≠ "Sentinel-2A" →
      (fun t =>
          if t = "Sentinel-2A" then
            downloadAndParseResult false false (some 1)
          else downloadAndParseResult true true (some 2)) t = some g →
      (t, g) ∈
        processSatellites
          (fun t =>
            if t = "Sentinel-2A" then
              downloadAndParseResult false false (some 1)
            else downloadAndParseResult true true (some 2))
          ["Sentinel-2A", "Sentinel-2B", "Sentinel-2C"]) ∧
    (∀ t, t ≠ "Sentinel-2A" →
      List.lookup t
          (processSatellites
            (fun t =>
              if t = "Sentinel-2A" then
                downloadAndParseResult false false (some 1)
              else downloadAndParseResult true true (some 2))
            ["Sentinel-2A", "Sentinel-2B", "Sentinel-2C"]) =
        List.lookup t
          (processSatellites
            (fun t =>
              if t = "Sentinel-2A" then
                downloadAndParseResult true true (some 1)
              else downloadAndParseResult true true (some 2))
            ["Sentinel-2A", "Sentinel-2B", "Sentinel-2C"])) :=
  C8_failure_isolated ["Sentinel-2A", "Sentinel-2B", "Sentinel-2C"]
    (fun t =>
      if t = "Sentinel-2A" then downloadAndParseResult false false (some 1)
      else downloadAndParseResult true true (some 2))
    (fun t =>
      if t = "Sentinel-2A" then downloadAndParseResult true true (some 1)
      else downloadAndParseResult true true (some 2))
    "Sentinel-2A"
    (fun t ht => by simp [ht])
    (by rfl)

/-! ## Spatial query engine (`collect_acq_plans_over_location`,
lines 243-261).  The containment test the code delegates to shapely
(`gdf.geometry.contains(point)`) is point-in-polygon interior membership;
for a point not on the boundary this is the even-odd ray-crossing rule.  It
is embedded here over integer coordinates in the standard division-free form
(the crossing inequality `px < ax + (bx-ax)(py-ay)/(by-ay)` multiplied
through by `by-ay`, whose sign is known in each branch); the claim's sample
coordinates are integral and its sample points are interior / exterior, not
boundary. -/

/-- One acquisition-plan record as seen by the query engine: its footprint
polygon (exterior-ring vertices) plus identifying tags. -/
structure AcqRecord where
  footprint : List (Int × Int)
  satellite : String
  layer : String
deriving DecidableEq

/-- Does the horizontal ray from `p` to the right cross edge `a`-`b`?
(Even-odd crossing rule, half-open in `y` so vertices are not double
counted.) -/
def edgeCrosses (p a b : Int × Int) : Bool :=
  (decide (a.2 > p.2) != decide (b.2 > p.2)) &&
    (if b.2 > a.2 then
      decide ((p.1 - a.1) * (b.2 - a.2) < (b.1 - a.1) * (p.2 - a.2))
    else
      decide ((p.1 - a.1) * (b.2 - a.2) > (b.1 - a.1) * (p.2 - a.2)))

/-- The closed cycle of edges of a polygon given by its vertex list. -/
def polygonEdges (poly : List (Int × Int)) :
    List ((Int × Int) × (Int × Int)) :=
  poly.zip (poly.rotate 1)

/-- Point-in-polygon interior containment: odd number of ray crossings.  An
empty vertex list has no edges, so it contains nothing. -/
def containsPointQ (poly : List (Int × Int)) (p : Int × Int) : Bool :=
  (polygonEdges poly).countP (fun e => edgeCrosses p e.1 e.2) % 2 == 1

/-- `collect_acq_plans_over_location` (lines 243-261): build
`Point(lon, lat)`, filter each satellite's records by containment, keep the
non-empty match sets, and concatenate them in intake order. -/
def collectAcqPlans (lat lon : Int) (gdfs : List (List AcqRecord)) :
    List AcqRecord :=
  ((gdfs.map (fun g => g.filter (fun r => containsPointQ r.footprint (lon, lat)))).filter
      (fun m => !m.isEmpty)).join

/-- The square footprint of the claim's example. -/
def squareRecord : AcqRecord :=
  { footprint := [(0, 0), (10, 0), (10, 10), (0, 10)],
    satellite := "Sentinel-2A", layer := "S2A" }

/-- A record with an empty footprint. -/
def emptyFootprintRecord : AcqRecord :=
  { footprint := [], satellite := "Sentinel-2A", layer := "S2A" }

/-- Claim C4: a record is returned for a query point exactly when its
footprint contains the point; an empty footprint never matches; for the
square `(0,0),(10,0),(10,10),(0,10)` the point `(5,5)` is contained and
`(15,15)` is not, end to end through the query engine. -/
theorem C4_query_containment (lat lon : Int) (gdfs : List (List AcqRecord))
    (r : AcqRecord) :
    (r ∈ collectAcqPlans lat lon gdfs ↔
      (∃ g ∈ gdfs, r ∈ g) ∧ containsPointQ r.footprint (lon, lat) = true) ∧
    (r.footprint = [] → r ∉ collectAcqPlans lat lon gdfs) ∧
    containsPointQ [(0, 0), (10, 0), (10, 10), (0, 10)] (5, 5) = true ∧
    containsPointQ [(0, 0), (10, 0), (10, 10), (0, 10)] (15, 15) = false ∧
    collectAcqPlans 5 5 [[squareRecord]] = [squareRecord] ∧
    collectAcqPlans 15 15 [[squareRecord]] = [] := by
  have hmem : r ∈ collectAcqPlans lat lon gdfs ↔
      (∃ g ∈ gdfs, r ∈ g) ∧ containsPointQ r.footprint (lon, lat) = true := by
    unfold collectAcqPlans
    rw [List.mem_join]
    constructor
    · rintro ⟨m, hm, hr⟩
      rcases List.mem_filter.mp hm with ⟨hmap, _⟩
      rcases List.mem_map.mp hmap with ⟨g, hg, hgm⟩
      subst hgm
      rcases List.mem_filter.mp hr with ⟨hrg, hc⟩
      exact ⟨⟨g, hg, hrg⟩, by simpa using hc⟩
    · rintro ⟨⟨g, hg, hrg⟩, hc⟩
      refine ⟨g.filter (fun r => containsPointQ r.footprint (lon, lat)), ?_, ?_⟩
      · refine List.mem_filter.mpr ⟨List.mem_map.mpr ⟨g, hg, rfl⟩, ?_⟩
        have : r ∈ g.filter (fun r => containsPointQ r.footprint (lon, lat)) :=
          List.mem_filter.mpr ⟨hrg, by simpa using hc⟩
        cases hfil : g.filter (fun r => containsPointQ r.footprint (lon, lat)) with
        | nil => rw [hfil] at this; exact absurd this (List.not_mem_nil r)
        | cons a l => simp
      · exact List.mem_filter.mpr ⟨hrg, by simpa using hc⟩
  refine ⟨hmem, ?_, by decide, by decide, by decide, by decide⟩
  intro hempty hin
  have hc := (hmem.mp hin).2
  rw [hempty] at hc
  have hfalse : containsPointQ [] (lon, lat) = false := rfl
  rw [hfalse] at hc
  exact Bool.noConfusion hc

theorem C4_query_containment_witness :
    emptyFootprintRecord ∉
      collectAcqPlans 47 (-122) [[emptyFootprintRecord]] :=
  (C4_query_containment 47 (-122) [[emptyFootprintRecord]]
      emptyFootprintRecord).2.1 rfl

/-! ## Joining metadata onto the GeoDataFrame
(`augment_gdf_with_metadata`, lines 209-241) and the export schema
(`__main__`, lines 335-344). -/

/-- The fixed 18-column export schema (lines 22-41). -/
def TABLE_COLUMNS : List String :=
  ["Polygon", "ID", "TimeSpan.begin", "TimeSpan.end", "OrbitAbsolute",
   "OrbitRelative", "Scenes", "id", "Name", "timestamp", "icon",
   "Timeliness", "Station", "Mode", "ObservationTimeStart",
   "ObservationTimeStop", "ObservationDuration", "layer"]

/-- The GeoDataFrame's name-column spelling (line 209): `true` = `Name`,
`false` = `name`.  `none` for the whole frame means neither column exists. -/
def nameColLabel : Bool → String
  | true => "Name"
  | false => "name"

/-- `map_field` (lines 211-212):
`gdf[name_col].map(lambda n: placemark_metadata.get(n, {}).get(field, default))`
per row, or the broadcast default when the frame has no name column.  A `none`
name cell is a pandas `NaN` name, which is not a metadata key. -/
def mapField (meta : List (String × PlacemarkMeta)) (nameCol : Option Bool)
    (nameCell : Option String) (field : String) (dflt : Option String) :
    Option String :=
  match nameCol with
  | none => dflt
  | some _ =>
    match nameCell with
    | none => dflt
    | some n =>
      match List.lookup n meta with
      | none => dflt
      | some m => (dictGet m field).getD dflt

/-- pandas `Series.fillna` on one cell. -/
def fillna {α : Type} : Option α → Option α → Option α
  | some v, _ => some v
  | none, b => b

/-- The `id` column cell (lines 234-236):
`gdf['ID'].fillna(gdf[name_col])` when the name column exists, otherwise
`gdf.get('ID', '')` — which is the `ID` column itself, just assigned in the
extended-field loop. -/
def idCellOf (meta : List (String × PlacemarkMeta)) (nameCol : Option Bool)
    (nameCell : Option String) : Option String :=
  match nameCol with
  | some _ => fillna (mapField meta nameCol nameCell "ID" none) nameCell
  | none => mapField meta nameCol nameCell "ID" none

/-- The `timestamp` column (lines 228-232): `'timestamp' not in gdf.columns`
is always false here (the column was just assigned in the loop of lines
225-226), so the column is replaced wholesale by `TimeSpan.begin` when every
explicit timestamp is missing, and otherwise `fillna`-ed per row with
`TimeSpan.begin`. -/
def timestampColumn (meta : List (String × PlacemarkMeta))
    (nameCol : Option Bool) (names : List (Option String)) :
    List (Option String) :=
  let ex := names.map (fun n => mapField meta nameCol n "timestamp" none)
  let bg := names.map (fun n => mapField meta nameCol n "begin" none)
  if ex.all Option.isNone then bg else List.zipWith fillna ex bg

/-- One row's columns after `augment_gdf_with_metadata` (lines 209-239):
the original name column (when present) plus every assigned column with its
final value — the later assignments of lines 228-236 replace the `timestamp`
initialised in the extended-field loop and add `id`, `layer`, `satellite`. -/
def augmentedRow (meta : List (String × PlacemarkMeta)) (nameCol : Option Bool)
    (nameCell tsCell idCell : Option String) (layerCode satName : String) :
    List (String × Option String) :=
  (match nameCol with
    | none => []
    | some b => [(nameColLabel b, nameCell)]) ++
  [("TimeSpan.begin", mapField meta nameCol nameCell "begin" none),
   ("TimeSpan.end", mapField meta nameCol nameCell "end" none),
   ("icon", mapField meta nameCol nameCell "icon" none),
   ("Polygon", mapField meta nameCol nameCell "Polygon" (some "")),
   ("ID", mapField meta nameCol nameCell "ID" none),
   ("Timeliness", mapField meta nameCol nameCell "Timeliness" none),
   ("Station", mapField meta nameCol nameCell "Station" none),
   ("Mode", mapField meta nameCol nameCell "Mode" none),
   ("ObservationTimeStart", mapField meta nameCol nameCell "ObservationTimeStart" none),
   ("ObservationTimeStop", mapField meta nameCol nameCell "ObservationTimeStop" none),
   ("ObservationDuration", mapField meta nameCol nameCell "ObservationDuration" none),
   ("OrbitAbsolute", mapField meta nameCol nameCell "OrbitAbsolute" none),
   ("OrbitRelative", mapField meta nameCol nameCell "OrbitRelative" none),
   ("Scenes", mapField meta nameCol nameCell "Scenes" none),
   ("timestamp", tsCell),
   ("id", idCell),
   ("layer", some layerCode),
   ("satellite", some satName)]

/-- All rows of the augmented frame, with the column-level `timestamp` branch
of lines 228-232 applied across the frame. -/
def augmentRows (meta : List (String × PlacemarkMeta)) (nameCol : Option Bool)
    (names : List (Option String)) (layerCode satName : String) :
    List (List (String × Option String)) :=
  List.zipWith
    (fun n t =>
      augmentedRow meta nameCol n t (idCellOf meta nameCol n) layerCode satName)
    names (timestampColumn meta nameCol names)

/-- Lines 335-337: every schema column absent from the frame is added with
the empty string. -/
def ensureColumns (row : List (String × Option String)) :
    List (String × Option String) :=
  TABLE_COLUMNS.foldl
    (fun r c => if (List.lookup c r).isSome then r else r ++ [(c, some "")])
    row

/-- `_sanitize_for_table` on a `String` cell. -/
def sanitizeStr (s : String) : String := String.mk (sanitizeChars s.toList)

/-- `_sanitize_for_table` on an optional cell (pandas `NaN` = `none`). -/
def sanitizeCellStr : Option String → String
  | none => ""
  | some s => sanitizeStr s

/-- The cell stored for column `c`, flattening "column absent" and "cell
`NaN`" into `none`. -/
def cellAt (row : List (String × Option String)) (c : String) : Option String :=
  match List.lookup c row with
  | none => none
  | some v => v

/-- A row as it is exported (line 344 and `dataframe_to_tsv`): the 18 schema
columns in order, each cell sanitized. -/
def exportRow (row : List (String × Option String)) : List (String × String) :=
  TABLE_COLUMNS.map (fun c => (c, sanitizeCellStr (cellAt (ensureColumns row) c)))

theorem timestampColumn_eq_map (meta : List (String × PlacemarkMeta))
    (nameCol : Option Bool) (names : List (Option String)) :
    timestampColumn meta nameCol names =
      names.map (fun n =>
        fillna (mapField meta nameCol n "timestamp" none)
          (mapField meta nameCol n "begin" none)) := by
  unfold timestampColumn
  by_cases h :
      (names.map (fun n => mapField meta nameCol n "timestamp" none)).all
        Option.isNone
  · rw [if_pos h]
    refine List.map_congr_left ?_
    intro n hn
    have hex : (mapField meta nameCol n "timestamp" none).isNone := by
      have := List.all_eq_true.mp h _ (List.mem_map.mpr ⟨n, hn, rfl⟩)
      exact this
    rw [Option.isNone_iff_eq_none] at hex
    rw [hex]
    rfl
  · rw [if_neg h, List.zipWith_map_left, List.zipWith_map_right,
      List.zipWith_same]

theorem augmentRows_eq_map (meta : List (String × PlacemarkMeta))
    (nameCol : Option Bool) (names : List (Option String))
    (layerCode satName : String) :
    augmentRows meta nameCol names layerCode satName =
      names.map (fun n =>
        augmentedRow meta nameCol n
          (fillna (mapField meta nameCol n "timestamp" none)
            (mapField meta nameCol n "begin" none))
          (idCellOf meta nameCol n) layerCode satName) := by
  unfold augmentRows
  rw [timestampColumn_eq_map, List.zipWith_map_right, List.zipWith_same]

theorem mem_zip_map {α β : Type} (f : α → β) (l : List α) (p : α × β)
    (hp : p ∈ l.zip (l.map f)) : p.1 ∈ l ∧ p.2 = f p.1 := by
  induction l with
  | nil => simp at hp
  | cons x l ih =>
    rw [List.map_cons, List.zip_cons_cons] at hp
    rcases List.mem_cons.mp hp with h | h
    · rw [h]
      exact ⟨by simp, rfl⟩
    · rcases ih h with ⟨h1, h2⟩
      exact ⟨List.mem_cons_of_mem _ h1, h2⟩

/-- The (schema column, metadata field) pairs whose export cells are filled
directly from the joined placemark data with default `None`. -/
def colFieldPairs : List (String × String) :=
  [("TimeSpan.begin", "begin"), ("TimeSpan.end", "end"), ("icon", "icon"),
   ("ID", "ID"), ("Timeliness", "Timeliness"), ("Station", "Station"),
   ("Mode", "Mode"), ("ObservationTimeStart", "ObservationTimeStart"),
   ("ObservationTimeStop", "ObservationTimeStop"),
   ("ObservationDuration", "ObservationDuration"),
   ("OrbitAbsolute", "OrbitAbsolute"), ("OrbitRelative", "OrbitRelative"),
   ("Scenes", "Scenes")]

theorem lookup_map_pair {β : Type} (l : List String) (g : String → β)
    (c : String) (hc : c ∈ l) :
    List.lookup c (l.map (fun x => (x, g x))) = some (g c) := by
  induction l with
  | nil => simp at hc
  | cons x l ih =>
    rw [List.map_cons]
    by_cases h : c = x
    · subst h
      simp
    · have hbeq : (c == x) = false := by simp [h]
      simp only [List.lookup, hbeq]
      refine ih ?_
      rcases List.mem_cons.mp hc with h2 | h2
      · exact absurd h2 h
      · exact h2

set_option maxHeartbeats 1000000 in
theorem ensureColumns_augmented_upper (meta : List (String × PlacemarkMeta))
    (n t i : Option String) (lc sn : String) :
    ensureColumns (augmentedRow meta (some true) n t i lc sn) =
      augmentedRow meta (some true) n t i lc sn := by
  simp [ensureColumns, TABLE_COLUMNS, augmentedRow, nameColLabel, List.lookup]

set_option maxHeartbeats 1000000 in
theorem ensureColumns_augmented_lower (meta : List (String × PlacemarkMeta))
    (n t i : Option String) (lc sn : String) :
    ensureColumns (augmentedRow meta (some false) n t i lc sn) =
      augmentedRow meta (some false) n t i lc sn ++ [("Name", some "")] := by
  simp [ensureColumns, TABLE_COLUMNS, augmentedRow, nameColLabel, List.lookup]

set_option maxHeartbeats 1000000 in
theorem ensureColumns_augmented_noname (meta : List (String × PlacemarkMeta))
    (n t i : Option String) (lc sn : String) :
    ensureColumns (augmentedRow meta none n t i lc sn) =
      augmentedRow meta none n t i lc sn ++ [("Name", some "")] := by
  simp [ensureColumns, TABLE_COLUMNS, augmentedRow, nameColLabel, List.lookup]

/-- Claim C3: for every row of the augmented frame, the exported row carries
all eighteen schema columns in order; every schema column resolves to a
(string) cell; the thirteen directly joined columns export exactly the
sanitized joined value, hence the empty string whenever the joined placemark
value is missing (as does `Name` when the frame spells it `name` or lacks
it); and the exported `timestamp` is the explicit `timestamp` extended
attribute when present, otherwise `TimeSpan.begin`. -/
theorem C3_schema_columns (meta : List (String × PlacemarkMeta))
    (nameCol : Option Bool) (names : List (Option String))
    (layerCode satName : String) (p : Option String × List (String × Option String))
    (hp : p ∈ names.zip (augmentRows meta nameCol names layerCode satName)) :
    ((exportRow p.2).map Prod.fst = TABLE_COLUMNS) ∧
    (∀ c ∈ TABLE_COLUMNS, (List.lookup c (exportRow p.2)).isSome = true) ∧
    (∀ cf ∈ colFieldPairs,
      List.lookup cf.1 (exportRow p.2) =
        some (sanitizeCellStr (mapField meta nameCol p.1 cf.2 none))) ∧
    (∀ cf ∈ colFieldPairs, mapField meta nameCol p.1 cf.2 none = none →
      List.lookup cf.1 (exportRow p.2) = some "") ∧
    (nameCol ≠ some true → List.lookup "Name" (exportRow p.2) = some "") ∧
    (List.lookup "timestamp" (exportRow p.2) =
      some (sanitizeCellStr
        (fillna (mapField meta nameCol p.1 "timestamp" none)
          (mapField meta nameCol p.1 "begin" none)))) := by
  rw [augmentRows_eq_map] at hp
  obtain ⟨-, hrow⟩ := mem_zip_map _ names p hp
  rw [hrow]
  rcases nameCol with - | b
  · simp only [exportRow, ensureColumns_augmented_noname]
    have h3 : ∀ cf ∈ colFieldPairs,
        List.lookup cf.1
            (TABLE_COLUMNS.map (fun c =>
              (c, sanitizeCellStr
                (cellAt
                  (augmentedRow meta none p.1
                      (fillna (mapField meta none p.1 "timestamp" none)
                        (mapField meta none p.1 "begin" none))
                      (idCellOf meta none p.1) layerCode satName ++
                    [("Name", some "")]) c)))) =
          some (sanitizeCellStr (mapField meta none p.1 cf.2 none)) := by
      intro cf hcf
      fin_cases hcf <;> (rw [lookup_map_pair _ _ _ (by decide)]; rfl)
    refine ⟨?_, ?_, h3, ?_, ?_, ?_⟩
    · rw [List.map_map]
      exact (List.map_congr_left fun a _ => rfl).trans (List.map_id _)
    · intro c hc
      rw [lookup_map_pair _ _ c hc]
      rfl
    · intro cf hcf hnone
      rw [h3 cf hcf, hnone]
      rfl
    · intro _
      rw [lookup_map_pair _ _ "Name" (by decide)]
      rfl
    · rw [lookup_map_pair _ _ "timestamp" (by decide)]
      rfl
  · rcases b with - | -
    · simp only [exportRow, ensureColumns_augmented_lower]
      have h3 : ∀ cf ∈ colFieldPairs,
          List.lookup cf.1
              (TABLE_COLUMNS.map (fun c =>
                (c, sanitizeCellStr
                  (cellAt
                    (augmentedRow meta (some false) p.1
                        (fillna (mapField meta (some false) p.1 "timestamp" none)
                          (mapField meta (some false) p.1 "begin" none))
                        (idCellOf meta (some false) p.1) layerCode satName ++
                      [("Name", some "")]) c)))) =
            some (sanitizeCellStr (mapField meta (some false) p.1 cf.2 none)) := by
        intro cf hcf
        fin_cases hcf <;> (rw [lookup_map_pair _ _ _ (by decide)]; rfl)
      refine ⟨?_, ?_, h3, ?_, ?_, ?_⟩
      · rw [List.map_map]
        exact (List.map_congr_left fun a _ => rfl).trans (List.map_id _)
      · intro c hc
        rw [lookup_map_pair _ _ c hc]
        rfl
      · intro cf hcf hnone
        rw [h3 cf hcf, hnone]
        rfl
      · intro _
        rw [lookup_map_pair _ _ "Name" (by decide)]
        rfl
      · rw [lookup_map_pair _ _ "timestamp" (by decide)]
        rfl
    · simp only [exportRow, ensureColumns_augmented_upper]
      have h3 : ∀ cf ∈ colFieldPairs,
          List.lookup cf.1
              (TABLE_COLUMNS.map (fun c =>
                (c, sanitizeCellStr
                  (cellAt
                    (augmentedRow meta (some true) p.1
                        (fillna (mapField meta (some true) p.1 "timestamp" none)
                          (mapField meta (some true) p.1 "begin" none))
                        (idCellOf meta (some true) p.1) layerCode satName) c)))) =
            some (sanitizeCellStr (mapField meta (some true) p.1 cf.2 none)) := by
        intro cf hcf
        fin_cases hcf <;> (rw [lookup_map_pair _ _ _ (by decide)]; rfl)
      refine ⟨?_, ?_, h3, ?_, ?_, ?_⟩
      · rw [List.map_map]
        exact (List.map_congr_left fun a _ => rfl).trans (List.map_id _)
      · intro c hc
        rw [lookup_map_pair _ _ c hc]
        rfl
      · intro cf hcf hnone
        rw [h3 cf hcf, hnone]
        rfl
      · intro hne
        exact absurd rfl hne
      · rw [lookup_map_pair _ _ "timestamp" (by decide)]
        rfl

/-- A concrete metadata table for witnesses: one placemark named `A` with a
begin time and a `Station` attribute, no `ID` and no `timestamp`. -/
def demoMeta : List (String × PlacemarkMeta) :=
  [("A",
    { beginT := some "2024-01-01", endT := none, iconT := none,
      polygon := "POLYGON Z EMPTY", data := [("Station", "X")] })]

theorem C3_schema_columns_witness :
    (exportRow
        (augmentedRow demoMeta (some true) (some "A")
          (fillna (mapField demoMeta (some true) (some "A") "timestamp" none)
            (mapField demoMeta (some true) (some "A") "begin" none))
          (idCellOf demoMeta (some true) (some "A"))
          "S2A" "Sentinel-2A")).map Prod.fst = TABLE_COLUMNS :=
  (C3_schema_columns demoMeta (some true) [some "A"] "S2A" "Sentinel-2A"
      (some "A",
        augmentedRow demoMeta (some true) (some "A")
          (fillna (mapField demoMeta (some true) (some "A") "timestamp" none)
            (mapField demoMeta (some true) (some "A") "begin" none))
          (idCellOf demoMeta (some true) (some "A"))
          "S2A" "Sentinel-2A")
      (by decide)).1

/-- Claim C10: the lowercase `id` cell equals the `ID` extended attribute
when present; otherwise it falls back to the row's name cell (whenever the
frame has a name column); and in the standard `Name`-spelt frame the
exported `id` and `Name` columns coincide exactly for rows without an
explicit `ID` attribute. -/
theorem C10_id_fallback (meta : List (String × PlacemarkMeta))
    (nameCol : Option Bool) (nameCell : Option String) (v : String) :
    (mapField meta nameCol nameCell "ID" none = some v →
      idCellOf meta nameCol nameCell = some v) ∧
    (nameCol.isSome = true → mapField meta nameCol nameCell "ID" none = none →
      idCellOf meta nameCol nameCell = nameCell) ∧
    (nameCol = some true → mapField meta nameCol nameCell "ID" none = none →
      ∀ tsCell (layerCode satName : String),
        List.lookup "id"
            (exportRow (augmentedRow meta nameCol nameCell tsCell
              (idCellOf meta nameCol nameCell) layerCode satName)) =
          List.lookup "Name"
            (exportRow (augmentedRow meta nameCol nameCell tsCell
              (idCellOf meta nameCol nameCell) layerCode satName))) := by
  refine ⟨?_, ?_, ?_⟩
  · intro h
    rcases nameCol with - | b <;> simp [idCellOf, h, fillna]
  · intro hs h
    rcases nameCol with - | b
    · simp at hs
    · simp [idCellOf, h, fillna]
  · intro hnc h tsCell layerCode satName
    subst hnc
    simp only [exportRow, ensureColumns_augmented_upper]
    rw [lookup_map_pair _ _ "id" (by decide),
      lookup_map_pair _ _ "Name" (by decide)]
    have hid : cellAt
        (augmentedRow meta (some true) nameCell tsCell
          (idCellOf meta (some true) nameCell) layerCode satName) "id" =
        idCellOf meta (some true) nameCell := by
      simp [cellAt, augmentedRow, nameColLabel, List.lookup]
    have hnm : cellAt
        (augmentedRow meta (some true) nameCell tsCell
          (idCellOf meta (some true) nameCell) layerCode satName) "Name" =
        nameCell := by
      simp [cellAt, augmentedRow, nameColLabel, List.lookup]
    rw [hid, hnm]
    simp [idCellOf, h, fillna]

theorem C10_id_fallback_witness :
    List.lookup "id"
        (exportRow (augmentedRow demoMeta (some true) (some "A") none
          (idCellOf demoMeta (some true) (some "A")) "S2A" "Sentinel-2A")) =
      List.lookup "Name"
        (exportRow (augmentedRow demoMeta (some true) (some "A") none
          (idCellOf demoMeta (some true) (some "A")) "S2A" "Sentinel-2A")) :=
  (C10_id_fallback demoMeta (some true) (some "A") "unused").2.2 rfl (by decide)
    none "S2A" "Sentinel-2A"

/-! ## Row ordering for export (`__main__`, lines 339-342):
`location_df.sort_values(by="TimeSpan.begin",
key=lambda s: pd.to_datetime(s, errors='coerce'))`. -/

/-- A row as the sorter sees it: the `TimeSpan.begin` cell plus a tag
standing for the rest of the row. -/
structure SortRow where
  beginCell : String
  tag : Nat
deriving DecidableEq

/-- `pd.to_datetime(_, errors='coerce')` on the ISO `YYYY-MM-DD` strings in
play, encoded as a sortable natural number; anything else coerces to `NaT`
(`none`). -/
def parseDateKey (s : String) : Option Nat :=
  match s.toList with
  | [y1, y2, y3, y4, c5, m1, m2, c8, d1, d2] =>
    if c5 = '-' ∧ c8 = '-' ∧ ([y1, y2, y3, y4, m1, m2, d1, d2].all Char.isDigit) then
      let v := fun (c : Char) => c.toNat - 48
      let y := ((v y1 * 10 + v y2) * 10 + v y3) * 10 + v y4
      let mo := v m1 * 10 + v m2
      let da := v d1 * 10 + v d2
      if 1 ≤ mo ∧ mo ≤ 12 ∧ 1 ≤ da ∧ da ≤ 31 then
        some ((y * 100 + mo) * 100 + da)
      else none
    else none
  | _ => none

/-- Key comparison with `NaT` ordered after every timestamp
(`na_position='last'`, the `sort_values` default). -/
def natKeyLe : Option Nat → Option Nat → Bool
  | _, none => true
  | none, some _ => false
  | some a, some b => decide (a ≤ b)

def rowKey (r : SortRow) : Option Nat := parseDateKey r.beginCell

/-- The contract of the `sort_values` call of lines 339-342: the output is a
permutation of the input that is nondecreasing in the coerced key, with all
unparsable (`NaT`) keys after every parsable one.  pandas' default sort kind
is `quicksort`, which pandas documents as not stable, so the call specifies
the output only up to the order of tied keys. -/
def sortSpec (input out : List SortRow) : Prop :=
  out.Perm input ∧
    out.Pairwise (fun a b => natKeyLe (rowKey a) (rowKey b) = true)

/-- Modelled from the spec: a stable sort by the same key ("tie-broken by
original order"), as reference for the claimed tie behaviour — stable
insertion sort. -/
def insertStable (le : SortRow → SortRow → Bool) (x : SortRow) :
    List SortRow → List SortRow
  | [] => [x]
  | y :: ys => if le x y then x :: y :: ys else y :: insertStable le x ys

/-- Modelled from the spec: the unique stably-sorted arrangement. -/
def stableSortByKey (l : List SortRow) : List SortRow :=
  l.foldr (insertStable (fun a b => natKeyLe (rowKey a) (rowKey b))) []

/-- Claim C2 (counterexample): the sort the code requests is not stable.  For
two rows with the same begin value `2024-01-01` and tags 1, 2, the swapped
order satisfies everything `sort_values(kind='quicksort')` guarantees, yet
differs from the stable (original-order-preserving) arrangement the claim
promises. -/
theorem C2_counterexample_stable_ties :
    sortSpec [⟨"2024-01-01", 1⟩, ⟨"2024-01-01", 2⟩]
        [⟨"2024-01-01", 2⟩, ⟨"2024-01-01", 1⟩] ∧
      [SortRow.mk "2024-01-01" 2, SortRow.mk "2024-01-01" 1] ≠
        stableSortByKey [⟨"2024-01-01", 1⟩, ⟨"2024-01-01", 2⟩] := by
  refine ⟨⟨List.Perm.swap _ _ _, by decide⟩, by decide⟩

/-- The three-record example of the claim: begin values `2024-01-02`,
`2024-01-01`, and an unparsable string, in intake order. -/
def exampleRows : List SortRow :=
  [⟨"2024-01-02", 1⟩, ⟨"2024-01-01", 2⟩, ⟨"not-a-date", 3⟩]

/-- The claimed export order for `exampleRows`. -/
def exampleSorted : List SortRow :=
  [⟨"2024-01-01", 2⟩, ⟨"2024-01-02", 1⟩, ⟨"not-a-date", 3⟩]

/-- Claim C2 (amended): every output the requested sort may produce is
ascending in the parsed begin key with all unparsable rows after all parsable
ones; tie order is not guaranteed (pandas' default quicksort is not stable).
On the claim's three-record example the keys are distinct, so the output is
uniquely determined: 2024-01-01, then 2024-01-02, then the unparsable row. -/
theorem C2_sort_example_unique (out : List SortRow)
    (h : sortSpec exampleRows out) : out = exampleSorted := by
  obtain ⟨hperm, hsorted⟩ := h
  have hmem : out ∈ exampleRows.permutations' :=
    List.mem_permutations'.mpr hperm
  have hkey : ∀ o ∈ exampleRows.permutations',
      o.Pairwise (fun a b => natKeyLe (rowKey a) (rowKey b) = true) →
        o = exampleSorted := by decide
  exact hkey out hmem hsorted

theorem C2_sort_example_unique_witness :
    sortSpec exampleRows exampleSorted ∧ exampleSorted = exampleSorted :=
  ⟨⟨List.Perm.swap _ _ _, by decide⟩,
    C2_sort_example_unique exampleSorted ⟨List.Perm.swap _ _ _, by decide⟩⟩

/-! ## TSV serialization (`dataframe_to_tsv`, lines 272-279, and the write of
lines 352-353).  `to_csv(sep="\t", index=False, lineterminator="\n")` writes
one line per row; with the default QUOTE_MINIMAL a field containing the
delimiter, the quote char, or a CR/LF is wrapped in double quotes with inner
quotes doubled.  `dataframe_to_tsv` then strips trailing whitespace
(`.rstrip()`), and `__main__` appends one final newline. -/

/-- Does csv QUOTE_MINIMAL have to quote this field? -/
def needsQuote (f : List Char) : Bool :=
  f.any (fun c => c = '\t' || c = '"' || c = '\n' || c = '\r')

/-- Double every inner quote. -/
def escQuotes : List Char → List Char
  | [] => []
  | c :: cs => if c = '"' then '"' :: '"' :: escQuotes cs else c :: escQuotes cs

/-- One csv field as written by `to_csv`. -/
def encodeField (f : List Char) : List Char :=
  if needsQuote f then '"' :: (escQuotes f ++ ['"']) else f

/-- Lines, each terminated by the line terminator `"\n"`. -/
def linesOut : List (List Char) → List Char
  | [] => []
  | l :: ls => l ++ '\n' :: linesOut ls

/-- Python `str.rstrip()`. -/
def rstripPy (l : List Char) : List Char :=
  (l.reverse.dropWhile isWsPy).reverse

/-- `dataframe_to_tsv` on the selected 18-column frame, followed by
`tsv_file.write(table_text + "\n")`: sanitize every cell, encode, join each
row with tabs, one row per line, strip trailing whitespace, append the final
newline. -/
def exportTsv (header : List (List Char))
    (rows : List (List (Option (List Char)))) : List Char :=
  rstripPy
      (linesOut
        (((header.map encodeField) ::
            rows.map (fun r => r.map (fun cell => encodeField (sanitizeForTable cell)))).map
          (joinSep '\t'))) ++ ['\n']

/-- Split on every occurrence of `sep` (Python `str.split(sep)` semantics:
no run collapsing, the empty text gives one empty field). -/
def splitSep (sep : Char) : List Char → List (List Char)
  | [] => [[]]
  | c :: cs =>
    match splitSep sep cs with
    | [] => [[]]
    | t :: ts => if c = sep then [] :: t :: ts else (c :: t) :: ts

/-- Drop the file-final newline before splitting into lines. -/
def stripFinalNewline (l : List Char) : List Char :=
  if l.getLast? = some '\n' then l.dropLast else l

/-- The parse the claim describes: one row per line, fields split on tab. -/
def parseTsv (text : List Char) : List (List (List Char)) :=
  (splitSep '\n' (stripFinalNewline text)).map (splitSep '\t')

theorem splitSep_ne_nil (sep : Char) (l : List Char) : splitSep sep l ≠ [] := by
  induction l with
  | nil => simp [splitSep]
  | cons c cs ih =>
    unfold splitSep
    cases h : splitSep sep cs with
    | nil => simp
    | cons t ts => by_cases hc : c = sep <;> simp [hc]

theorem splitSep_cons_eq (sep c : Char) (cs : List Char) :
    splitSep sep (c :: cs) =
      match splitSep sep cs with
      | [] => [[]]
      | t :: ts => if c = sep then [] :: t :: ts else (c :: t) :: ts := rfl

theorem splitSep_append_no_sep (sep : Char) (x l : List Char)
    (hx : ∀ c ∈ x, c ≠ sep) :
    splitSep sep (x ++ l) =
      (x ++ (splitSep sep l).headD []) :: (splitSep sep l).tail := by
  induction x with
  | nil =>
    cases h : splitSep sep l with
    | nil => exact absurd h (splitSep_ne_nil sep l)
    | cons t ts => simp [h]
  | cons d x ih =>
    have hd : d ≠ sep := hx d (by simp)
    have ih2 := ih (fun c hc => hx c (List.mem_cons_of_mem _ hc))
    rw [List.cons_append, splitSep_cons_eq, ih2]
    simp [hd]

theorem splitSep_no_sep (sep : Char) (t : List Char)
    (ht : ∀ c ∈ t, c ≠ sep) : splitSep sep t = [t] := by
  have := splitSep_append_no_sep sep t [] ht
  simpa [splitSep] using this

theorem splitSep_joinSep (sep : Char) :
    ∀ ts : List (List Char), ts ≠ [] →
      (∀ t ∈ ts, ∀ c ∈ t, c ≠ sep) →
      splitSep sep (joinSep sep ts) = ts := by
  intro ts
  induction ts with
  | nil => intro h; exact absurd rfl h
  | cons t ts ih =>
    intro _ hno
    cases ts with
    | nil =>
      have : joinSep sep [t] = t := rfl
      rw [this]
      exact splitSep_no_sep sep t (hno t (by simp))
    | cons t2 ts2 =>
      have hj : joinSep sep (t :: t2 :: ts2) = t ++ sep :: joinSep sep (t2 :: ts2) := rfl
      rw [hj, splitSep_append_no_sep sep t _ (hno t (by simp))]
      have hrest : splitSep sep (sep :: joinSep sep (t2 :: ts2)) =
          [] :: splitSep sep (joinSep sep (t2 :: ts2)) := by
        rw [splitSep_cons_eq]
        cases h : splitSep sep (joinSep sep (t2 :: ts2)) with
        | nil => exact absurd h (splitSep_ne_nil sep _)
        | cons u us => simp
      rw [hrest, ih (by simp) (fun u hu => hno u (List.mem_cons_of_mem _ hu))]
      simp

theorem linesOut_eq_joinSep :
    ∀ ls : List (List Char), ls ≠ [] →
      linesOut ls = joinSep '\n' ls ++ ['\n'] := by
  intro ls
  induction ls with
  | nil => intro h; exact absurd rfl h
  | cons l ls ih =>
    intro _
    cases ls with
    | nil => rfl
    | cons l2 ls2 =>
      have h1 : linesOut (l :: l2 :: ls2) = l ++ '\n' :: linesOut (l2 :: ls2) := rfl
      have h2 : joinSep '\n' (l :: l2 :: ls2) = l ++ '\n' :: joinSep '\n' (l2 :: ls2) := rfl
      rw [h1, h2, ih (by simp)]
      simp

theorem rstripPy_snoc_nl (j : List Char) (c : Char) (hc : isWsPy c = false)
    (hlast : j.getLast? = some c) : rstripPy (j ++ ['\n']) = j := by
  unfold rstripPy
  rw [List.reverse_append]
  have h1 : (['\n'] : List Char).reverse = ['\n'] := rfl
  rw [h1]
  have hnl : isWsPy '\n' = true := by decide
  cases hrev : j.reverse with
  | nil =>
    have h2 : j.getLast? = none := by
      rw [← List.head?_reverse, hrev]
      rfl
    rw [h2] at hlast
    exact Option.noConfusion hlast
  | cons c2 t =>
    have hc2 : c2 = c := by
      have h2 := List.head?_reverse j
      rw [hrev, hlast] at h2
      simpa using h2
    subst hc2
    have hstep : List.dropWhile isWsPy (['\n'] ++ c2 :: t) = c2 :: t := by
      simp [List.dropWhile, hnl, hc]
    rw [hstep, ← hrev]
    exact List.reverse_reverse j

theorem joinSep_getLast_of_last (sep : Char) :
    ∀ (ts : List (List Char)) (tl : List Char), ts.getLast? = some tl →
      tl ≠ [] → (joinSep sep ts).getLast? = tl.getLast? := by
  intro ts
  induction ts with
  | nil => intro tl h; simp at h
  | cons t ts ih =>
    intro tl h htl
    cases ts with
    | nil =>
      simp at h
      subst h
      rfl
    | cons t2 ts2 =>
      have h2 : (t2 :: ts2).getLast? = some tl := by
        rw [← h]
        exact (List.getLast?_cons_cons ..).symm ▸ rfl
      have hjoin := ih tl h2 htl
      have hne : joinSep sep (t2 :: ts2) ≠ [] := by
        intro hnil
        rw [hnil] at hjoin
        have : tl.getLast? = none := hjoin.symm
        cases tl with
        | nil => exact htl rfl
        | cons a u => simp at this
      have hj : joinSep sep (t :: t2 :: ts2) = t ++ sep :: joinSep sep (t2 :: ts2) := rfl
      rw [hj, List.getLast?_append_of_ne_nil t (by simp)]
      have hco : sep :: joinSep sep (t2 :: ts2) =
          [sep] ++ joinSep sep (t2 :: ts2) := rfl
      rw [hco, List.getLast?_append_of_ne_nil [sep] hne]
      exact hjoin

theorem needsQuote_eq_false (f : List Char)
    (hq : '"' ∉ f) (hws : ∀ c ∈ f, isWsPy c = true → c = ' ') :
    needsQuote f = false := by
  rw [needsQuote, List.any_eq_false]
  intro c hc
  have ht : c ≠ '\t' := by
    intro h
    subst h
    exact absurd (hws _ hc (by decide)) (by decide)
  have hn : c ≠ '\n' := by
    intro h
    subst h
    exact absurd (hws _ hc (by decide)) (by decide)
  have hr : c ≠ '\r' := by
    intro h
    subst h
    exact absurd (hws _ hc (by decide)) (by decide)
  have hqq : c ≠ '"' := fun h => hq (h ▸ hc)
  simp [ht, hn, hr, hqq]

theorem encodeField_clean (f : List Char) (h : needsQuote f = false) :
    encodeField f = f := by
  rw [encodeField, h]
  rfl

theorem tokensAux_cons_eq (c : Char) (cs acc : List Char) :
    tokensAux (c :: cs) acc =
      if isWsPy c then
        if acc.isEmpty then tokensAux cs [] else acc.reverse :: tokensAux cs []
      else tokensAux cs (c :: acc) := rfl

theorem tokensAux_no_ws_prefix :
    ∀ (t l acc : List Char), (∀ c ∈ t, isWsPy c = false) →
      tokensAux (t ++ l) acc = tokensAux l (t.reverse ++ acc) := by
  intro t
  induction t with
  | nil => intro l acc _; simp
  | cons d t ih =>
    intro l acc ht
    have hd : isWsPy d = false := ht d (by simp)
    have hacc : (d :: t).reverse ++ acc = t.reverse ++ d :: acc := by simp
    rw [List.cons_append, tokensAux_cons_eq, hd, hacc]
    simp only [Bool.false_eq_true, if_false]
    exact ih l (d :: acc) (fun c hc => ht c (List.mem_cons_of_mem _ hc))

theorem pyTokens_joinSep :
    ∀ ts : List (List Char),
      (∀ t ∈ ts, t ≠ [] ∧ ∀ c ∈ t, isWsPy c = false) →
      pyTokens (joinSep ' ' ts) = ts := by
  intro ts
  induction ts with
  | nil => intro _; rfl
  | cons t ts ih =>
    intro h
    have ht := h t (by simp)
    cases ts with
    | nil =>
      show tokensAux (joinSep ' ' [t]) [] = [t]
      have hj : joinSep ' ' [t] = t ++ [] := by simp [joinSep]
      rw [hj, tokensAux_no_ws_prefix t [] [] ht.2]
      have : t.reverse ++ [] = t.reverse := by simp
      rw [this]
      unfold tokensAux
      have hne : t.reverse.isEmpty = false := by
        cases t with
        | nil => exact absurd rfl ht.1
        | cons a u => simp
      rw [hne]
      simp
    | cons t2 ts2 =>
      show tokensAux (joinSep ' ' (t :: t2 :: ts2)) [] = t :: t2 :: ts2
      have hj : joinSep ' ' (t :: t2 :: ts2) =
          t ++ ' ' :: joinSep ' ' (t2 :: ts2) := rfl
      rw [hj, tokensAux_no_ws_prefix t _ [] ht.2]
      have hrw : t.reverse ++ [] = t.reverse := by simp
      rw [hrw]
      unfold tokensAux
      have hsp : isWsPy ' ' = true := by decide
      rw [hsp]
      have hne : t.reverse.isEmpty = false := by
        cases t with
        | nil => exact absurd rfl ht.1
        | cons a u => simp
      simp only [if_true, hne, Bool.false_eq_true, if_false]
      rw [List.reverse_reverse]
      have := ih (fun u hu => h u (List.mem_cons_of_mem _ hu))
      rw [pyTokens] at this
      rw [this]

theorem sanitizeChars_idem (l : List Char) :
    sanitizeChars (sanitizeChars l) = sanitizeChars l := by
  have h2 : pyTokens (sanitizeChars l) = pyTokens l :=
    pyTokens_joinSep (pyTokens l) (pyTokens_sound l)
  show joinSep ' ' (pyTokens (sanitizeChars l)) = sanitizeChars l
  rw [h2]
  rfl

theorem sanitizeForTable_getLast_not_ws (cell : Option (List Char))
    (h : sanitizeForTable cell ≠ []) :
    ∃ c0, (sanitizeForTable cell).getLast? = some c0 ∧ isWsPy c0 = false := by
  cases cell with
  | none => exact absurd rfl h
  | some s =>
    have hts : pyTokens s ≠ [] := by
      intro hnil
      apply h
      show sanitizeChars s = []
      rw [sanitizeChars, hnil]
      rfl
    obtain ⟨tl, htl, hlast⟩ :=
      joinSep_getLast? ' ' (pyTokens s) (fun t ht => (pyTokens_sound s t ht).1) hts
    have htlmem : tl ∈ pyTokens s := List.mem_of_getLast?_eq_some htl
    have htlne : tl ≠ [] := (pyTokens_sound s tl htlmem).1
    have hsome : tl.getLast?.isSome := List.getLast?_isSome.mpr htlne
    obtain ⟨c0, hc0⟩ := Option.isSome_iff_exists.mp hsome
    refine ⟨c0, ?_, ?_⟩
    · show (sanitizeChars s).getLast? = some c0
      rw [sanitizeChars, hlast, hc0]
    · exact (pyTokens_sound s tl htlmem).2 c0 (List.mem_of_getLast?_eq_some hc0)

/-- Claim C7 (counterexample): the round trip fails as soon as a sanitized
cell contains a double quote.  For the one-column table with single cell
`x"y`, `to_csv` (QUOTE_MINIMAL) writes the field as `"x""y"`, so tab/newline
splitting recovers `"x""y"`, not the sanitized value `x"y`. -/
theorem C7_counterexample_quoted_cell :
    parseTsv (exportTsv [['A']] [[some ['x', '"', 'y']]]) ≠
      [['A']] :: [[sanitizeForTable (some ['x', '"', 'y'])]] := by
  decide

/-- Claim C7 (amended): for tables whose sanitized cells contain no double
quote (so QUOTE_MINIMAL never quotes), with a non-empty header of tab-free,
whitespace-free, quote-free labels, at least one data row, no empty row, and
a non-empty sanitized value in the last cell of the last row (so `.rstrip()`
removes exactly the final newline), re-parsing the exported TSV by lines and
tabs recovers the header and every sanitized field value exactly, and
exporting the re-parsed table again is byte-identical to the first export. -/
theorem C7_roundtrip (header : List (List Char))
    (rows : List (List (Option (List Char))))
    (hh : ∀ hc ∈ header, ∀ ch ∈ hc, isWsPy ch = false ∧ ch ≠ '"')
    (hhne : header ≠ [])
    (hq : ∀ r ∈ rows, ∀ cell ∈ r, '"' ∉ sanitizeForTable cell)
    (hrne : rows ≠ [])
    (hrowne : ∀ r ∈ rows, r ≠ [])
    (hlastr : ∃ r cell, rows.getLast? = some r ∧ r.getLast? = some cell ∧
      sanitizeForTable cell ≠ []) :
    parseTsv (exportTsv header rows) =
        header :: rows.map (fun r => r.map sanitizeForTable) ∧
      exportTsv header
          (rows.map (fun r => r.map (fun cell => some (sanitizeForTable cell)))) =
        exportTsv header rows := by
  have hsanws : ∀ (cell : Option (List Char)),
      ∀ c ∈ sanitizeForTable cell, isWsPy c = true → c = ' ' := by
    intro cell
    cases cell with
    | none => intro c hc _; simp [sanitizeForTable] at hc
    | some s => exact sanitizeChars_ws s
  have hencH : header.map encodeField = header := by
    have h1 : header.map encodeField = header.map id := by
      refine List.map_congr_left ?_
      intro hc hmem
      have hnq : needsQuote hc = false := by
        refine needsQuote_eq_false hc ?_ ?_
        · intro hmem2
          exact (hh hc hmem '"' hmem2).2 rfl
        · intro c hcm hw
          exact absurd hw (by simp [(hh hc hmem c hcm).1])
      rw [encodeField_clean hc hnq]
      rfl
    rw [h1, List.map_id]
  have hencR : rows.map (fun r => r.map (fun cell => encodeField (sanitizeForTable cell))) =
      rows.map (fun r => r.map sanitizeForTable) := by
    refine List.map_congr_left ?_
    intro r hr
    refine List.map_congr_left ?_
    intro cell hcell
    exact encodeField_clean _
      (needsQuote_eq_false _ (hq r hr cell hcell) (hsanws cell))
  have hNoNl : ∀ ln ∈ (header :: rows.map (fun r => r.map sanitizeForTable)).map (joinSep '\t'),
      ∀ c ∈ ln, c ≠ '\n' := by
    intro ln hln c hc heq
    obtain ⟨fr, hfr, hfr2⟩ := List.mem_map.mp hln
    rw [← hfr2] at hc
    rcases mem_joinSep _ hc with h | ⟨f, hf, hcf⟩
    · rw [heq] at h
      exact absurd h (by decide)
    · rw [heq] at hcf
      rcases List.mem_cons.mp hfr with hfr3 | hfr3
      · rw [hfr3] at hf
        have := (hh f hf '\n' hcf).1
        exact absurd this (by decide)
      · obtain ⟨r2, hr2, hr2eq⟩ := List.mem_map.mp hfr3
        rw [← hr2eq] at hf
        obtain ⟨cell, hcell, hcelleq⟩ := List.mem_map.mp hf
        rw [← hcelleq] at hcf
        have := hsanws cell '\n' hcf (by decide)
        exact absurd this (by decide)
  have hexport : exportTsv header rows =
      joinSep '\n'
          ((header :: rows.map (fun r => r.map sanitizeForTable)).map (joinSep '\t')) ++
        ['\n'] := by
    unfold exportTsv
    rw [hencH, hencR, linesOut_eq_joinSep _ (by simp)]
    congr 1
    obtain ⟨r, cell, hr, hcell, hsne⟩ := hlastr
    obtain ⟨c0, hc0, hc0ws⟩ := sanitizeForTable_getLast_not_ws cell hsne
    have hrowsne : rows.map (fun r => r.map sanitizeForTable) ≠ [] := by
      simp [hrne]
    have hrowlast : (rows.map (fun r => r.map sanitizeForTable)).getLast? =
        some (r.map sanitizeForTable) := by
      rw [List.getLast?_map, hr]
      rfl
    have hlineslast :
        ((header :: rows.map (fun r => r.map sanitizeForTable)).map (joinSep '\t')).getLast? =
          some (joinSep '\t' (r.map sanitizeForTable)) := by
      rw [List.getLast?_map]
      cases hrs : rows.map (fun r => r.map sanitizeForTable) with
      | nil => exact absurd hrs hrowsne
      | cons a l =>
        rw [List.getLast?_cons_cons]
        rw [hrs] at hrowlast
        rw [hrowlast]
        rfl
    have hcelllast : (r.map sanitizeForTable).getLast? =
        some (sanitizeForTable cell) := by
      rw [List.getLast?_map, hcell]
      rfl
    have hlastlineLast : (joinSep '\t' (r.map sanitizeForTable)).getLast? =
        some c0 := by
      rw [joinSep_getLast_of_last '\t' _ _ hcelllast hsne]
      exact hc0
    have hlastlinene : joinSep '\t' (r.map sanitizeForTable) ≠ [] :=
      List.ne_nil_of_mem (List.mem_of_getLast?_eq_some hlastlineLast)
    have hjlast : (joinSep '\n'
        ((header :: rows.map (fun r => r.map sanitizeForTable)).map (joinSep '\t'))).getLast? =
          some c0 := by
      rw [joinSep_getLast_of_last '\n' _ _ hlineslast hlastlinene]
      exact hlastlineLast
    exact rstripPy_snoc_nl _ c0 hc0ws hjlast
  have hsplitrows :
      ((header :: rows.map (fun r => r.map sanitizeForTable)).map (joinSep '\t')).map
          (splitSep '\t') =
        header :: rows.map (fun r => r.map sanitizeForTable) := by
    rw [List.map_map]
    have hcongr : ∀ fr ∈ header :: rows.map (fun r => r.map sanitizeForTable),
        (splitSep '\t' ∘ joinSep '\t') fr = id fr := by
      intro fr hfr
      rcases List.mem_cons.mp hfr with hfr2 | hfr2
      · show splitSep '\t' (joinSep '\t' fr) = fr
        rw [hfr2]
        refine splitSep_joinSep '\t' header hhne ?_
        intro f hf c hc heq
        have := (hh f hf c hc).1
        rw [heq] at this
        exact absurd this (by decide)
      · show splitSep '\t' (joinSep '\t' fr) = fr
        obtain ⟨r2, hr2, hr2eq⟩ := List.mem_map.mp hfr2
        subst hr2eq
        refine splitSep_joinSep '\t' _ (by simp [hrowne r2 hr2]) ?_
        intro f hf c hc heq
        obtain ⟨cell, hcell, hcelleq⟩ := List.mem_map.mp hf
        rw [← hcelleq] at hc
        have := hsanws cell c hc (by rw [heq]; decide)
        rw [heq] at this
        exact absurd this (by decide)
    rw [List.map_congr_left hcongr, List.map_id]
  constructor
  · rw [hexport]
    unfold parseTsv stripFinalNewline
    rw [List.getLast?_concat, if_pos rfl, List.dropLast_concat,
      splitSep_joinSep '\n' _ (by simp) hNoNl, hsplitrows]
  · have hidem : ∀ cell : Option (List Char),
        sanitizeChars (sanitizeForTable cell) = sanitizeForTable cell := by
      intro cell
      cases cell with
      | none => rfl
      | some s => exact sanitizeChars_idem s
    have hx : (rows.map (fun r => r.map (fun cell => some (sanitizeForTable cell)))).map
          (fun r => r.map (fun cell => encodeField (sanitizeForTable cell))) =
        rows.map (fun r => r.map (fun cell => encodeField (sanitizeForTable cell))) := by
      rw [List.map_map]
      refine List.map_congr_left ?_
      intro r hr
      show ((r.map (fun cell => some (sanitizeForTable cell))).map
          (fun cell => encodeField (sanitizeForTable cell))) =
        r.map (fun cell => encodeField (sanitizeForTable cell))
      rw [List.map_map]
      refine List.map_congr_left ?_
      intro cell hcell
      show encodeField (sanitizeForTable (some (sanitizeForTable cell))) =
        encodeField (sanitizeForTable cell)
      have : sanitizeForTable (some (sanitizeForTable cell)) =
          sanitizeForTable cell := hidem cell
      rw [this]
    show rstripPy (linesOut (((header.map encodeField) ::
        (rows.map (fun r => r.map (fun cell => some (sanitizeForTable cell)))).map
          (fun r => r.map (fun cell => encodeField (sanitizeForTable cell)))).map
        (joinSep '\t'))) ++ ['\n'] = exportTsv header rows
    rw [hx]
    rfl

theorem C7_roundtrip_witness :
    parseTsv (exportTsv [['A'], ['B']] [[some ['x'], some ['y']]]) =
      [['A'], ['B']] ::
        [[some ['x'], some ['y']]].map (fun r => r.map sanitizeForTable) :=
  (C7_roundtrip [['A'], ['B']] [[some ['x'], some ['y']]]
    (by decide) (by decide) (by decide) (by decide) (by decide)
    ⟨[some ['x'], some ['y']], some ['y'], rfl, rfl, by decide⟩).1

theorem C6_sanitize_collapses_and_trims_witness :
    '\t' ∉ sanitizeForTable (some [' ', 'a', '\t', '\t', 'b', ' ']) :=
  (C6_sanitize_collapses_and_trims (some [' ', 'a', '\t', '\t', 'b', ' '])).1
